import Mathlib

/-!
Verification of the Disku disk-usage analyzer core.

This file gives a shallow embedding of the data model and operations of the
repository (the size tree in disku-core/src/tree.rs, the macOS bulk scanner in
disku-core/src/mac_scanner.rs, the generic scanner in disku-core/src/scanner.rs,
the NTFS MFT scanner in src/mft_scanner.rs, and the navigation loop of
src-tauri/src/commands.rs), and proves or refutes the frozen specification
claims about them.

Modelling conventions:
  - Rust u64/u32 sizes and counters become Nat (no scanner arithmetic can
    overflow 64 bits on physically realizable inputs, and no claim probes
    overflow).
  - Paths (std::path::Path) become lists of components (List String).
  - Byte buffers become List Nat with each byte read little-endian, matching
    the native byte order the source relies on.
  - Fallible syscalls are oracles packaged in a record of functions; a scan is
    a deterministic function of the oracle.  The rayon parallel fan-out is
    determinized as an in-order fold, which is the order rayon's collect
    preserves for the resulting Vec.
  - Rust panics (out-of-range slice indexing) are modelled as Except.error ().
  - Vec::sort_unstable_by is embedded as List.insertionSort with the same
    comparator.  An executable embedding has to fix one deterministic tie
    order while the source leaves it implementation-defined, so theorems
    below use the sort only through tie-order-independent properties
    (sorted output, permutation of the input).
-/

/-- The tree node of disku-core/src/tree.rs (struct FileNode). -/
inductive FileNode where
  | mk (name : String) (size : Nat) (is_dir : Bool) (children : List FileNode)

def FileNode.name : FileNode → String
  | .mk n _ _ _ => n

def FileNode.size : FileNode → Nat
  | .mk _ s _ _ => s

def FileNode.is_dir : FileNode → Bool
  | .mk _ _ d _ => d

def FileNode.children : FileNode → List FileNode
  | .mk _ _ _ c => c

/-- FileNode::new_file. -/
def FileNode.new_file (name : String) (size : Nat) : FileNode :=
  .mk name size false []

/-- FileNode::new_dir. -/
def FileNode.new_dir (name : String) : FileNode :=
  .mk name 0 true []

/-- The aggregation step the scanners perform when a children vector is
finalized: node.size = children.iter().map(|c| c.size).sum(). -/
def sumSizes (cs : List FileNode) : Nat :=
  (cs.map FileNode.size).sum

/-- The comparator of FileNode::sort_by_size: |a, b| b.size.cmp(&a.size),
i.e. size descending. -/
def bySizeDesc (a b : FileNode) : Prop := b.size ≤ a.size

instance : DecidableRel bySizeDesc := fun a b =>
  inferInstanceAs (Decidable (b.size ≤ a.size))

instance : IsTotal FileNode bySizeDesc :=
  ⟨fun a b => Nat.le_total b.size a.size⟩

instance : IsTrans FileNode bySizeDesc :=
  ⟨fun _ _ _ h h' => Nat.le_trans h' h⟩

/-- The comparator of FileNode::sort_by_name:
|a, b| a.name.to_lowercase().cmp(&b.name.to_lowercase()). -/
def byNameAsc (a b : FileNode) : Prop := a.name.toLower ≤ b.name.toLower

instance : DecidableRel byNameAsc := fun a b =>
  inferInstanceAs (Decidable (a.name.toLower ≤ b.name.toLower))

instance : IsTotal FileNode byNameAsc :=
  ⟨fun a b => le_total a.name.toLower b.name.toLower⟩

instance : IsTrans FileNode byNameAsc :=
  ⟨fun _ _ _ h h' => le_trans h h'⟩

mutual
/-- FileNode::sort_by_size: sort the children by size descending, then sort
each child recursively.  The source sorts the children vector first and then
recurses into each child; since the recursive pass preserves every size, the
sort commutes with it (theorem sortBySizeList_insertionSort_comm below), and
the embedding recurses first to stay structurally recursive.  The source's
Vec::sort_unstable_by leaves the order among equal-size children
implementation-defined; the embedding fixes one deterministic order
(insertionSort), and the claims settled below rely on it only through
properties every comparator sort shares - being a permutation sorted by the
comparator - never through its tie order. -/
def FileNode.sort_by_size : FileNode → FileNode
  | .mk n s d cs => .mk n s d (List.insertionSort bySizeDesc (sortBySizeList cs))

/-- The recursive pass of sort_by_size over a children vector. -/
def sortBySizeList : List FileNode → List FileNode
  | [] => []
  | c :: cs => c.sort_by_size :: sortBySizeList cs
end

mutual
/-- FileNode::sort_by_name: sort the children by lowercased name ascending,
recursively (same embedding shape as sort_by_size). -/
def FileNode.sort_by_name : FileNode → FileNode
  | .mk n s d cs => .mk n s d (List.insertionSort byNameAsc (sortByNameList cs))

/-- The recursive pass of sort_by_name over a children vector. -/
def sortByNameList : List FileNode → List FileNode
  | [] => []
  | c :: cs => c.sort_by_name :: sortByNameList cs
end

mutual
/-- The size invariant of the spec: every directory node's size equals the sum
of its children's sizes (checked recursively through the whole tree). -/
def sizeOk : FileNode → Bool
  | .mk _ s d cs => (!d || s == sumSizes cs) && sizeOkList cs

def sizeOkList : List FileNode → Bool
  | [] => true
  | c :: cs => sizeOk c && sizeOkList cs
end

/-- A children vector is in size-descending order (adjacent pairs). -/
def descBySize : List FileNode → Bool
  | [] => true
  | [_] => true
  | a :: b :: cs => (decide (b.size ≤ a.size)) && descBySize (b :: cs)

mutual
/-- The tree is size-sorted at every level. -/
def sortedBySize : FileNode → Bool
  | .mk _ _ _ cs => descBySize cs && sortedBySizeList cs

def sortedBySizeList : List FileNode → Bool
  | [] => true
  | c :: cs => sortedBySize c && sortedBySizeList cs
end

/-- An arbitrary finite sequence of re-sorts applied by consumers:
true stands for sort_by_size, false for sort_by_name. -/
def applySorts (ops : List Bool) (t : FileNode) : FileNode :=
  ops.foldl (fun u op => if op then u.sort_by_size else u.sort_by_name) t

mutual
/-- Mutual induction over the nested FileNode inductive, packaged once for all
tree lemmas below. -/
def FileNode.mutualInd {P : FileNode → Prop} {Q : List FileNode → Prop}
    (h1 : ∀ n s d cs, Q cs → P (.mk n s d cs)) (h2 : Q [])
    (h3 : ∀ c cs, P c → Q cs → Q (c :: cs)) : ∀ t, P t
  | .mk n s d cs => h1 n s d cs (FileNode.mutualIndList h1 h2 h3 cs)

def FileNode.mutualIndList {P : FileNode → Prop} {Q : List FileNode → Prop}
    (h1 : ∀ n s d cs, Q cs → P (.mk n s d cs)) (h2 : Q [])
    (h3 : ∀ c cs, P c → Q cs → Q (c :: cs)) : ∀ l, Q l
  | [] => h2
  | c :: cs =>
      h3 c cs (FileNode.mutualInd h1 h2 h3 c) (FileNode.mutualIndList h1 h2 h3 cs)
end

theorem sortBySizeList_eq_map (l : List FileNode) :
    sortBySizeList l = l.map FileNode.sort_by_size := by
  induction l with
  | nil => rfl
  | cons c cs ih => simp [sortBySizeList, ih]

theorem sortByNameList_eq_map (l : List FileNode) :
    sortByNameList l = l.map FileNode.sort_by_name := by
  induction l with
  | nil => rfl
  | cons c cs ih => simp [sortByNameList, ih]

theorem sizeOkList_eq_all (l : List FileNode) :
    sizeOkList l = l.all sizeOk := by
  induction l with
  | nil => rfl
  | cons c cs ih => simp [sizeOkList, ih, List.all_cons]

theorem sortedBySizeList_eq_all (l : List FileNode) :
    sortedBySizeList l = l.all sortedBySize := by
  induction l with
  | nil => rfl
  | cons c cs ih => simp [sortedBySizeList, ih, List.all_cons]

theorem sort_by_size_size (t : FileNode) : t.sort_by_size.size = t.size := by
  cases t; rfl

theorem sort_by_size_name (t : FileNode) : t.sort_by_size.name = t.name := by
  cases t; rfl

theorem sort_by_size_is_dir (t : FileNode) : t.sort_by_size.is_dir = t.is_dir := by
  cases t; rfl

theorem sort_by_name_size (t : FileNode) : t.sort_by_name.size = t.size := by
  cases t; rfl

theorem sort_by_name_name (t : FileNode) : t.sort_by_name.name = t.name := by
  cases t; rfl

/-- The embedding of sort_by_size recurses into the children before sorting
them, while the source sorts first and recurses after; the two orders agree
because the recursive pass preserves every size the comparator reads. -/
theorem sortBySizeList_insertionSort_comm (cs : List FileNode) :
    sortBySizeList (List.insertionSort bySizeDesc cs) =
      List.insertionSort bySizeDesc (sortBySizeList cs) := by
  rw [sortBySizeList_eq_map, sortBySizeList_eq_map]
  exact List.map_insertionSort (r := bySizeDesc) (s := bySizeDesc)
    FileNode.sort_by_size cs (fun a _ b _ => by
      unfold bySizeDesc
      rw [sort_by_size_size, sort_by_size_size])

/-- The same commutation for sort_by_name: the recursive pass preserves every
name the comparator reads. -/
theorem sortByNameList_insertionSort_comm (cs : List FileNode) :
    sortByNameList (List.insertionSort byNameAsc cs) =
      List.insertionSort byNameAsc (sortByNameList cs) := by
  rw [sortByNameList_eq_map, sortByNameList_eq_map]
  exact List.map_insertionSort (r := byNameAsc) (s := byNameAsc)
    FileNode.sort_by_name cs (fun a _ b _ => by
      unfold byNameAsc
      rw [sort_by_name_name, sort_by_name_name])

/-- Sorting a children vector (a permutation) does not change the size sum. -/
theorem sumSizes_perm {l l' : List FileNode} (h : l.Perm l') :
    sumSizes l = sumSizes l' := by
  unfold sumSizes
  exact List.Perm.sum_eq (h.map FileNode.size)

theorem sumSizes_insertionSort (r : FileNode → FileNode → Prop) [DecidableRel r]
    (l : List FileNode) : sumSizes (List.insertionSort r l) = sumSizes l :=
  sumSizes_perm (List.perm_insertionSort r l)

theorem sumSizes_sortBySizeList (l : List FileNode) :
    sumSizes (sortBySizeList l) = sumSizes l := by
  induction l with
  | nil => rfl
  | cons c cs ih =>
      simp [sortBySizeList, sumSizes, List.map_cons, List.sum_cons] at *
      simp [sort_by_size_size, ih]

theorem sumSizes_sortByNameList (l : List FileNode) :
    sumSizes (sortByNameList l) = sumSizes l := by
  induction l with
  | nil => rfl
  | cons c cs ih =>
      simp [sortByNameList, sumSizes, List.map_cons, List.sum_cons] at *
      simp [sort_by_name_size, ih]

theorem sizeOkList_iff_mem {l : List FileNode} :
    sizeOkList l = true ↔ ∀ c ∈ l, sizeOk c = true := by
  rw [sizeOkList_eq_all, List.all_eq_true]

/-- The size invariant is preserved by sort_by_size. -/
theorem sizeOk_sort_by_size :
    ∀ t : FileNode, sizeOk t = true → sizeOk t.sort_by_size = true := by
  have key : (∀ t : FileNode, sizeOk t = true → sizeOk t.sort_by_size = true) :=
    FileNode.mutualInd
      (P := fun t => sizeOk t = true → sizeOk t.sort_by_size = true)
      (Q := fun l => ∀ c ∈ l, sizeOk c = true → sizeOk c.sort_by_size = true)
      (fun n s d cs ih h => by
        simp only [FileNode.sort_by_size, sizeOk, Bool.and_eq_true] at h ⊢
        constructor
        · rw [sumSizes_insertionSort, sumSizes_sortBySizeList]
          exact h.1
        · rw [sizeOkList_iff_mem]
          intro c hc
          rw [List.mem_insertionSort, sortBySizeList_eq_map, List.mem_map] at hc
          obtain ⟨c₀, hc₀, rfl⟩ := hc
          exact ih c₀ hc₀ (sizeOkList_iff_mem.mp h.2 c₀ hc₀))
      (fun c hc => absurd hc (List.not_mem_nil c))
      (fun c cs hp hq c' hc' => by
        rcases List.mem_cons.mp hc' with rfl | h'
        · exact hp
        · exact hq c' h')
  exact key

/-- The size invariant is preserved by sort_by_name. -/
theorem sizeOk_sort_by_name :
    ∀ t : FileNode, sizeOk t = true → sizeOk t.sort_by_name = true := by
  have key : (∀ t : FileNode, sizeOk t = true → sizeOk t.sort_by_name = true) :=
    FileNode.mutualInd
      (P := fun t => sizeOk t = true → sizeOk t.sort_by_name = true)
      (Q := fun l => ∀ c ∈ l, sizeOk c = true → sizeOk c.sort_by_name = true)
      (fun n s d cs ih h => by
        simp only [FileNode.sort_by_name, sizeOk, Bool.and_eq_true] at h ⊢
        constructor
        · rw [sumSizes_insertionSort, sumSizes_sortByNameList]
          exact h.1
        · rw [sizeOkList_iff_mem]
          intro c hc
          rw [List.mem_insertionSort, sortByNameList_eq_map, List.mem_map] at hc
          obtain ⟨c₀, hc₀, rfl⟩ := hc
          exact ih c₀ hc₀ (sizeOkList_iff_mem.mp h.2 c₀ hc₀))
      (fun c hc => absurd hc (List.not_mem_nil c))
      (fun c cs hp hq c' hc' => by
        rcases List.mem_cons.mp hc' with rfl | h'
        · exact hp
        · exact hq c' h')
  exact key

/-- The size invariant is preserved by any sequence of re-sorts. -/
theorem sizeOk_applySorts (ops : List Bool) (t : FileNode)
    (h : sizeOk t = true) : sizeOk (applySorts ops t) = true := by
  induction ops generalizing t with
  | nil => exact h
  | cons op ops ih =>
      simp only [applySorts, List.foldl_cons] at *
      cases op
      · exact ih _ (sizeOk_sort_by_name t h)
      · exact ih _ (sizeOk_sort_by_size t h)

theorem descBySize_of_sorted : ∀ {l : List FileNode},
    List.Sorted bySizeDesc l → descBySize l = true
  | [], _ => rfl
  | [_], _ => rfl
  | a :: b :: cs, h => by
      rw [descBySize, Bool.and_eq_true, decide_eq_true_iff]
      exact ⟨(List.sorted_cons.mp h).1 b (by simp),
        descBySize_of_sorted (List.sorted_cons.mp h).2⟩

theorem sortedBySizeList_iff_mem {l : List FileNode} :
    sortedBySizeList l = true ↔ ∀ c ∈ l, sortedBySize c = true := by
  rw [sortedBySizeList_eq_all, List.all_eq_true]

/-- sort_by_size leaves the tree size-sorted at every level. -/
theorem sortedBySize_sort_by_size :
    ∀ t : FileNode, sortedBySize t.sort_by_size = true := by
  exact FileNode.mutualInd
    (P := fun t => sortedBySize t.sort_by_size = true)
    (Q := fun l => ∀ c ∈ l, sortedBySize c.sort_by_size = true)
    (fun n s d cs ih => by
      simp only [FileNode.sort_by_size, sortedBySize, Bool.and_eq_true]
      refine ⟨descBySize_of_sorted (List.sorted_insertionSort bySizeDesc _), ?_⟩
      rw [sortedBySizeList_iff_mem]
      intro c hc
      rw [List.mem_insertionSort, sortBySizeList_eq_map, List.mem_map] at hc
      obtain ⟨c₀, hc₀, rfl⟩ := hc
      exact ih c₀ hc₀)
    (fun c hc => absurd hc (List.not_mem_nil c))
    (fun c cs hp hq c' hc' => by
      rcases List.mem_cons.mp hc' with rfl | h'
      · exact hp
      · exact hq c' h')

/-- sort_by_size is idempotent. -/
theorem sort_by_size_idem :
    ∀ t : FileNode, t.sort_by_size.sort_by_size = t.sort_by_size := by
  exact FileNode.mutualInd
    (P := fun t => t.sort_by_size.sort_by_size = t.sort_by_size)
    (Q := fun l => ∀ c ∈ l, c.sort_by_size.sort_by_size = c.sort_by_size)
    (fun n s d cs ih => by
      simp only [FileNode.sort_by_size]
      have hmap : sortBySizeList (List.insertionSort bySizeDesc (sortBySizeList cs)) =
          List.insertionSort bySizeDesc (sortBySizeList cs) := by
        rw [sortBySizeList_eq_map]
        apply List.map_congr_left ?_ |>.trans (List.map_id _)
        intro x hx
        rw [List.mem_insertionSort, sortBySizeList_eq_map, List.mem_map] at hx
        obtain ⟨c₀, hc₀, rfl⟩ := hx
        exact ih c₀ hc₀
      rw [hmap, (List.sorted_insertionSort bySizeDesc _).insertionSort_eq])
    (fun c hc => absurd hc (List.not_mem_nil c))
    (fun c cs hp hq c' hc' => by
      rcases List.mem_cons.mp hc' with rfl | h'
      · exact hp
      · exact hq c' h')

/-- The progress handle of disku-core/src/scanner.rs (struct ScanProgress).
The atomic counters and the try-lock current_path sample are determinized as a
plain record threaded through the scan in traversal order. -/
structure ScanProgress where
  files_scanned : Nat
  dirs_scanned : Nat
  errors : Nat
  current_path : String
deriving DecidableEq

def pathSep : String := "/"

/-- Path::to_string_lossy of a component-list path. -/
def pathStr (p : List String) : String := String.intercalate pathSep p

/-- Path::parent: none for the empty path, otherwise the path less its last
component. -/
def pathParent : List String → Option (List String)
  | [] => none
  | l => some l.dropLast

/-- path.file_name().map(to_string_lossy).unwrap_or_else(whole-path lossy
string), as build_recursive and scan_bulk compute display names. -/
def pathName (p : List String) : String := (p.getLast?).getD (pathStr p)

/-- The dir_children grouping of build_tree: the entries (skipping the root
itself) whose parent is p, in input order (the HashMap pushes per key in
iteration order). -/
def dirChildren (root : List String) (entries : List (List String × Bool × Nat))
    (p : List String) : List (List String × Bool × Nat) :=
  entries.filter (fun e => decide (e.1 ≠ root ∧ pathParent e.1 = some p))

/-- Longest path among the entries: recursion along parent links grows the
path by one component per level, so this bounds the recursion depth of
build_recursive. -/
def maxPathLen (entries : List (List String × Bool × Nat)) : Nat :=
  (entries.map (fun e => e.1.length)).foldr max 0

/-- build_recursive of disku-core/src/tree.rs: fill a directory node from the
grouped entries, recomputing its size as the sum of child sizes once the
children vector is complete.  The source recursion is structural along parent
links (each level's paths are one component longer); the fuel parameter makes
that termination explicit and build_tree passes more fuel than any entry's
path length, so the fuel never runs out on the levels that have children. -/
def build_recursive (root : List String) (entries : List (List String × Bool × Nat)) :
    Nat → List String → FileNode → FileNode
  | 0, _, node => node
  | fuel + 1, node_path, node =>
    if node.is_dir = false then node
    else
      let kids := dirChildren root entries node_path
      let newChildren := kids.map (fun e =>
        let nm := pathName e.1
        if e.2.1 then
          let child := build_recursive root entries fuel e.1 (FileNode.new_dir nm)
          FileNode.mk child.name (sumSizes child.children) child.is_dir child.children
        else FileNode.new_file nm e.2.2)
      let cs := node.children ++ newChildren
      FileNode.mk node.name (sumSizes cs) node.is_dir cs

/-- build_tree of disku-core/src/tree.rs. -/
def build_tree (root_path : List String) (entries : List (List String × Bool × Nat)) :
    FileNode :=
  let root := FileNode.new_dir (pathStr root_path)
  (build_recursive root_path entries (maxPathLen entries + 1) root_path root).sort_by_size

/-- The jwalk fold of scan (disku-core/src/scanner.rs): an Ok entry is counted
(dirs also sample current_path) and collected with size 0 for directories and
the metadata length otherwise; an Err entry increments errors and is dropped.
A walk item is some (path, is_dir, metadata length or 0 on metadata failure),
or none for an Err item. -/
def scanFold : List (Option (List String × Bool × Nat)) → ScanProgress →
    List (List String × Bool × Nat) × ScanProgress
  | [], prog => ([], prog)
  | none :: rest, prog => scanFold rest { prog with errors := prog.errors + 1 }
  | some (p, d, sz) :: rest, prog =>
      let prog1 :=
        if d then
          { prog with dirs_scanned := prog.dirs_scanned + 1, current_path := pathStr p }
        else { prog with files_scanned := prog.files_scanned + 1 }
      let (flat, prog2) := scanFold rest prog1
      ((p, d, if d then 0 else sz) :: flat, prog2)

/-- scan of disku-core/src/scanner.rs: collect the walk stream, then
build_tree.  Total by construction: the Rust signature returns FileNode, not
Result, and so does the embedding. -/
def scan (root : List String) (walk : List (Option (List String × Bool × Nat)))
    (prog : ScanProgress) : FileNode × ScanProgress :=
  let (flat, prog1) := scanFold walk prog
  (build_tree root flat, prog1)

theorem sizeOk_children {t : FileNode} (h : sizeOk t = true) :
    sizeOkList t.children = true := by
  cases t with
  | mk n s d cs =>
      rw [sizeOk, Bool.and_eq_true] at h
      exact h.2

theorem sizeOkList_append {l l' : List FileNode} (h : sizeOkList l = true)
    (h' : sizeOkList l' = true) : sizeOkList (l ++ l') = true := by
  rw [sizeOkList_eq_all, List.all_append]
  rw [sizeOkList_eq_all] at h h'
  simp [h, h']

theorem sizeOk_build_recursive (root : List String)
    (entries : List (List String × Bool × Nat)) :
    ∀ (fuel : Nat) (p : List String) (node : FileNode), sizeOk node = true →
      sizeOk (build_recursive root entries fuel p node) = true := by
  intro fuel
  induction fuel with
  | zero => intro p node h; exact h
  | succ fuel ih =>
      intro p node h
      rw [build_recursive]
      by_cases hd : node.is_dir = false
      · rw [if_pos hd]; exact h
      · rw [if_neg hd]
        simp only [sizeOk, Bool.and_eq_true]
        refine ⟨by simp, ?_⟩
        apply sizeOkList_append (sizeOk_children h)
        rw [sizeOkList_iff_mem]
        intro c hc
        rw [List.mem_map] at hc
        obtain ⟨e, _, rfl⟩ := hc
        by_cases he : e.2.1
        · simp only [he, if_true]
          have hchild := ih e.1 (FileNode.new_dir (pathName e.1)) (by rfl)
          simp only [sizeOk, Bool.and_eq_true]
          exact ⟨by simp, sizeOk_children hchild⟩
        · simp only [he, if_false]
          rfl
  

/-! The macOS bulk scanner (disku-core/src/mac_scanner.rs). -/

def ATTR_CMN_NAME : Nat := 0x00000001
def ATTR_CMN_OBJTYPE : Nat := 0x00000008
def ATTR_CMN_ERROR : Nat := 0x20000000
def ATTR_FILE_DATALENGTH : Nat := 0x00000200
def VDIR : Nat := 2
def BULK_BUF_SIZE : Nat := 256 * 1024
def MAX_DEPTH : Nat := 512

/-- The decoded record of parse_bulk_entry (struct BulkEntry). -/
structure BulkEntry where
  name : String
  is_dir : Bool
  size : Nat
deriving DecidableEq

/-- One byte of the 256 KB zero-initialized scratch buffer: the oracle's list
is the buffer prefix the syscall wrote, the rest reads as 0, and every cell is
a u8. -/
def byteAt (buf : List Nat) (i : Nat) : Nat := (buf.getD i 0) % 256

/-- A native-endian (little-endian) u32 read from the scratch buffer; always
in bounds of the fixed-size buffer, so total. -/
def readU32 (buf : List Nat) (off : Nat) : Nat :=
  byteAt buf off + 256 * byteAt buf (off + 1) + 65536 * byteAt buf (off + 2) +
    16777216 * byteAt buf (off + 3)

/-- A u32 read from a record slice: Rust's data[off..off+4] panics when the
range leaves the slice, modelled as Except.error (). -/
def readU32P (data : List Nat) (off : Nat) : Except Unit Nat :=
  if off + 4 ≤ data.length then .ok (readU32 data off) else .error ()

/-- A u64 read from a record slice, panic-aware like readU32P. -/
def readU64P (data : List Nat) (off : Nat) : Except Unit Nat :=
  if off + 8 ≤ data.length then
    .ok (readU32 data off + 4294967296 * readU32 data (off + 4))
  else .error ()

/-- Reinterpret a u32 bit pattern as i32 (the attrreference_t offset field). -/
def asI32 (v : Nat) : Int :=
  if v < 2147483648 then (v : Int) else (v : Int) - 4294967296

/-- to_string_lossy / from_utf8_lossy on the name bytes, modelled
byte-transparently (one char per byte); injective on byte lists, which is all
the scanner observes of the decoding. -/
def decodeBytes (bs : List Nat) : String := String.mk (bs.map Char.ofNat)

/-- The record slice &buf[offset..offset + entry_length] handed to
parse_bulk_entry; its length is exactly entry_length. -/
def sliceBytes (buf : List Nat) (off len : Nat) : List Nat :=
  (List.range len).map (fun i => byteAt buf (off + i))

/-- The optional error attribute step of parse_bulk_entry: present only when
ATTR_CMN_ERROR was returned; a nonzero error skips the record (.ok none),
otherwise the cursor lands after the 4-byte field.  The read is panic-aware:
the field sits past the 24 bytes the length guard established. -/
def parse_error_attr (data : List Nat) (ret_commonattr : Nat) :
    Except Unit (Option Nat) :=
  if ret_commonattr &&& ATTR_CMN_ERROR ≠ 0 then
    match readU32P data 24 with
    | .error e => .error e
    | .ok err => if err ≠ 0 then .ok none else .ok (some 28)
  else .ok (some 24)

/-- The tail of parse_bulk_entry once the name attribute is known to be
present, with pos at the attrreference_t field: read the name reference,
resolve the name bytes relative to the field's own position, reject "." and
"..", read the object type, and the data length for files when returned. -/
def parse_after_name_bit (data : List Nat) (ret_fileattr ret_commonattr pos : Nat) :
    Except Unit (Option BulkEntry) :=
  match readU32P data pos, readU32P data (pos + 4) with
  | .error e, _ => .error e
  | _, .error e => .error e
  | .ok name_ref_offset, .ok _name_ref_length =>
    -- name bytes live at (position of the attrreference field) + offset
    let start : Int := (pos : Int) + asI32 name_ref_offset
    if start < 0 then .ok none
    else
      let name_data_start := start.toNat
      let pos2 := pos + 8
      if name_data_start < data.length then
        let name :=
          decodeBytes ((data.drop name_data_start).takeWhile (fun b => b != 0))
        if name = "." ∨ name = ".." then .ok none
        else if ret_commonattr &&& ATTR_CMN_OBJTYPE = 0 then .ok none
        else
          match readU32P data pos2 with
          | .error e => .error e
          | .ok obj_type =>
            let entry_is_dir := obj_type == VDIR
            let szE : Except Unit Nat :=
              if entry_is_dir = false ∧ ret_fileattr &&& ATTR_FILE_DATALENGTH ≠ 0
              then readU64P data (pos2 + 4)
              else .ok 0
            match szE with
            | .error e => .error e
            | .ok size => .ok (some ⟨name, entry_is_dir, size⟩)
      else .ok none

/-- parse_bulk_entry of disku-core/src/mac_scanner.rs, byte-exact and split
into its sequential attribute steps.  .ok none models the source's None
(record skipped), .error () models a Rust panic from an out-of-range slice
index.  The two u32 reads at offsets 4 and 16 follow the length guard and
cannot leave the slice, so they are plain reads; every later read is
conditional on attribute bits and is panic-aware. -/
def parse_bulk_entry (data : List Nat) : Except Unit (Option BulkEntry) :=
  if data.length < 4 + 20 then .ok none
  else
    let ret_commonattr := readU32 data 4
    let ret_fileattr := readU32 data 16
    match parse_error_attr data ret_commonattr with
    | .error e => .error e
    | .ok none => .ok none
    | .ok (some pos) =>
      if ret_commonattr &&& ATTR_CMN_NAME = 0 then .ok none
      else parse_after_name_bit data ret_fileattr ret_commonattr pos

/-- The per-buffer record loop of read_dir_bulk: walk count records, advancing
the cursor by entry_length each time; a zero or buffer-overflowing
entry_length ends the loop keeping the entries gathered so far; a panic inside
parse_bulk_entry propagates. -/
def bulkRecords (buf : List Nat) : Nat → Nat → List BulkEntry →
    Except Unit (List BulkEntry)
  | 0, _, acc => .ok acc
  | n + 1, offset, acc =>
    if offset + 4 > BULK_BUF_SIZE then .ok acc
    else
      let entry_length := readU32 buf offset
      if entry_length = 0 ∨ offset + entry_length > BULK_BUF_SIZE then .ok acc
      else
        match parse_bulk_entry (sliceBytes buf offset entry_length) with
        | .error e => .error e
        | .ok none => bulkRecords buf n (offset + entry_length) acc
        | .ok (some entry) => bulkRecords buf n (offset + entry_length) (acc ++ [entry])

/-- The syscall loop of read_dir_bulk over the getattrlistbulk return stream:
each element is (count, buffer bytes written).  A negative count makes the
whole directory fall back (.ok none); zero ends the loop; the record results
accumulate across successful calls.  An exhausted stream is the final
count-0 return. -/
def read_dir_bulk : List (Int × List Nat) → List BulkEntry →
    Except Unit (Option (List BulkEntry))
  | [], results => .ok (some results)
  | (count, buf) :: rest, results =>
    if count < 0 then .ok none
    else if count = 0 then .ok (some results)
    else
      match bulkRecords buf count.toNat 0 results with
      | .error e => .error e
      | .ok results1 => read_dir_bulk rest results1

/-- The filesystem oracle for the macOS scanner.
bulk p: none when opening the directory (or CString conversion) fails,
otherwise the successive getattrlistbulk returns for that directory.
readDir p: none when std::fs::read_dir fails; each item is none for an
entry/metadata error, or some (file_name, is_dir, metadata len).
dev p: symlink_metadata(p).dev(), none on failure. -/
structure MacFs where
  bulk : List String → Option (List (Int × List Nat))
  readDir : List String → Option (List (Option (String × Bool × Nat)))
  dev : List String → Option Nat

/-- read_dir_bulk including its open-failure exits. -/
def read_dir_bulk_fs (fs : MacFs) (p : List String) :
    Except Unit (Option (List BulkEntry)) :=
  match fs.bulk p with
  | none => .ok none
  | some calls => read_dir_bulk calls []

/-- The cross-device guard of both scan loops: when the root device is known,
a subdirectory is kept only if a fresh stat of the child path reports the
same device; with an unknown root device nothing is filtered. -/
def keepDev (fs : MacFs) (dir_path : List String) (root_dev : Option Nat)
    (name : String) : Bool :=
  match root_dev with
  | some rd => fs.dev (dir_path ++ [name]) == some rd
  | none => true

/-- The first loop of scan_dir_recursive: count each entry on Progress, then
either collect a file node or queue a subdirectory, silently dropping
subdirectories whose device differs from the root's (when the root device is
known). -/
def partitionBulk (fs : MacFs) (dir_path : List String) (root_dev : Option Nat) :
    List BulkEntry → ScanProgress →
    List FileNode × List (String × List String) × ScanProgress
  | [], prog => ([], [], prog)
  | e :: rest, prog =>
    let prog1 :=
      if e.is_dir then { prog with dirs_scanned := prog.dirs_scanned + 1 }
      else { prog with files_scanned := prog.files_scanned + 1 }
    if e.is_dir then
      let child_path := dir_path ++ [e.name]
      let (fns, des, prog2) := partitionBulk fs dir_path root_dev rest prog1
      if keepDev fs dir_path root_dev e.name then
        (fns, (e.name, child_path) :: des, prog2)
      else (fns, des, prog2)
    else
      let (fns, des, prog2) := partitionBulk fs dir_path root_dev rest prog1
      (FileNode.new_file e.name e.size :: fns, des, prog2)

/-- The entry loop of read_dir_fallback: an Err entry or failed metadata
increments errors and is skipped; the rest is counted and partitioned like the
bulk path. -/
def partitionFallback (fs : MacFs) (dir_path : List String) (root_dev : Option Nat) :
    List (Option (String × Bool × Nat)) → ScanProgress →
    List FileNode × List (String × List String) × ScanProgress
  | [], prog => ([], [], prog)
  | none :: rest, prog =>
      partitionFallback fs dir_path root_dev rest
        { prog with errors := prog.errors + 1 }
  | some (name, d, sz) :: rest, prog =>
    if d then
      let prog1 := { prog with dirs_scanned := prog.dirs_scanned + 1 }
      let child_path := dir_path ++ [name]
      let (fns, des, prog2) := partitionFallback fs dir_path root_dev rest prog1
      if keepDev fs dir_path root_dev name then
        (fns, (name, child_path) :: des, prog2)
      else (fns, des, prog2)
    else
      let prog1 := { prog with files_scanned := prog.files_scanned + 1 }
      let (fns, des, prog2) := partitionFallback fs dir_path root_dev rest prog1
      (FileNode.new_file name sz :: fns, des, prog2)

/-- The rayon fan-out over queued subdirectories, determinized in queue order:
each child scan returns its subtree children, the parent wraps them in a
directory node whose size is re-aggregated as the child sum.  The recursion
itself is passed in as a function (scan_dir_recursive ties the knot at the
depth budget below). -/
def scanSubdirs
    (recurse : List String → ScanProgress → Except Unit (List FileNode × ScanProgress)) :
    List (String × List String) → ScanProgress →
    Except Unit (List FileNode × ScanProgress)
  | [], prog => .ok ([], prog)
  | (name, child_path) :: rest, prog =>
    match recurse child_path prog with
    | .error e => .error e
    | .ok (children, prog1) =>
      let node := FileNode.mk name (sumSizes children) true children
      match scanSubdirs recurse rest prog1 with
      | .error e => .error e
      | .ok (nodes, prog2) => .ok (node :: nodes, prog2)

/-- read_dir_fallback of disku-core/src/mac_scanner.rs: plain
read_dir + metadata for one directory; a failed read_dir counts one error and
yields no children.  Recursion into subdirectories (depth + 1 in the source)
is the recurse parameter. -/
def read_dir_fallback
    (recurse : List String → ScanProgress → Except Unit (List FileNode × ScanProgress))
    (fs : MacFs) (dir_path : List String) (root_dev : Option Nat)
    (prog : ScanProgress) : Except Unit (List FileNode × ScanProgress) :=
  match fs.readDir dir_path with
  | none => .ok ([], { prog with errors := prog.errors + 1 })
  | some items =>
    let (file_nodes, dir_entries, prog1) :=
      partitionFallback fs dir_path root_dev items prog
    match scanSubdirs recurse dir_entries prog1 with
    | .error e => .error e
    | .ok (dir_nodes, prog2) => .ok (file_nodes ++ dir_nodes, prog2)

/-- The body of scan_dir_recursive below its depth guard: sample current_path,
bulk-read the directory, fall back to read_dir_fallback when the bulk read is
unavailable, and otherwise partition and recurse. -/
def scanLevel
    (recurse : List String → ScanProgress → Except Unit (List FileNode × ScanProgress))
    (fs : MacFs) (dir_path : List String) (root_dev : Option Nat)
    (prog : ScanProgress) : Except Unit (List FileNode × ScanProgress) :=
  let prog0 := { prog with current_path := pathStr dir_path }
  match read_dir_bulk_fs fs dir_path with
  | .error e => .error e
  | .ok none => read_dir_fallback recurse fs dir_path root_dev prog0
  | .ok (some entries) =>
    let (file_nodes, dir_entries, prog1) :=
      partitionBulk fs dir_path root_dev entries prog0
    match scanSubdirs recurse dir_entries prog1 with
    | .error e => .error e
    | .ok (dir_nodes, prog2) => .ok (file_nodes ++ dir_nodes, prog2)

/-- scan_dir_recursive of disku-core/src/mac_scanner.rs.  The source carries
depth upward and guards depth >= MAX_DEPTH; the embedding carries the
remaining budget MAX_DEPTH - depth downward, so the guard is remaining = 0 and
the recursion is structural.  A directory entered with no budget left yields
no children and touches nothing. -/
def scan_dir_recursive (fs : MacFs) (root_dev : Option Nat) :
    Nat → List String → ScanProgress → Except Unit (List FileNode × ScanProgress)
  | 0, _, prog => .ok ([], prog)
  | remaining + 1, dir_path, prog =>
      scanLevel (scan_dir_recursive fs root_dev remaining) fs dir_path root_dev prog

/-- scan_bulk of disku-core/src/mac_scanner.rs: scan from the root with the
full depth budget, wrap into the root directory node, aggregate and sort. -/
def scan_bulk (fs : MacFs) (root : List String) (prog : ScanProgress) :
    Except Unit (FileNode × ScanProgress) :=
  let root_name := pathName root
  let root_dev := fs.dev root
  match scan_dir_recursive fs root_dev MAX_DEPTH root prog with
  | .error e => .error e
  | .ok (children, prog1) =>
      .ok ((FileNode.mk root_name (sumSizes children) true children).sort_by_size,
        prog1)

/-! The NTFS MFT scanner (src/mft_scanner.rs). -/

/-- One MFT file record as the ntfs_reader iteration presents it to scan_mft:
its record number, whether it is a directory, the best file name with its
parent reference (none when get_best_file_name fails), and the unnamed $DATA
attribute size that get_data_size extracts. -/
structure MftFile where
  number : Nat
  is_dir : Bool
  bestName : Option (String × Nat)
  dataSize : Nat

/-- The table row scan_mft stores per record (struct MftEntry). -/
structure MftEntry where
  name : String
  parent_ref : Nat
  size : Nat
  is_dir : Bool

def ROOT_RECORD : Nat := 5

/-- The iterate_files loop of scan_mft: count every record on Progress
(files_scanned, also for directories, as the source does), skip records
without a usable name, and store the rest at their record number when it is
within the table. -/
def mftIterate : List MftFile → List (Option MftEntry) → ScanProgress →
    List (Option MftEntry) × ScanProgress
  | [], entries, prog => (entries, prog)
  | f :: rest, entries, prog =>
    let prog1 := { prog with files_scanned := prog.files_scanned + 1 }
    match f.bestName with
    | none => mftIterate rest entries prog1
    | some (name, parent_ref) =>
      let size := if f.is_dir then 0 else f.dataSize
      let entries1 :=
        if f.number < entries.length then
          entries.set f.number (some ⟨name, parent_ref, size, f.is_dir⟩)
        else entries
      mftIterate rest entries1 prog1

/-- The children_map bucket for parent p: the record numbers whose stored
entry names p as parent, skipping self-parent edges, in ascending record
order (the order the map-building loop pushes them). -/
def childrenOfMft (entries : List (Option MftEntry)) (p : Nat) : List Nat :=
  (List.range entries.length).filter (fun r =>
    match entries.getD r none with
    | some e => e.parent_ref == p && !(r == p)
    | none => false)

/-- build_subtree of src/mft_scanner.rs.  The source recursion is unbounded
and can only diverge on a parent-reference cycle threaded through the root,
which a well-formed MFT does not contain; the fuel parameter (scan_mft passes
the table size, an upper bound on any root-reachable parent chain) makes the
recursion total without changing any terminating run.  The entries[ref]
lookups are guarded at every call site, so the unwrap cannot fire; the
defensive none branch returns an inert leaf. -/
def build_subtree (entries : List (Option MftEntry)) : Nat → Nat → FileNode
  | 0, r =>
      match entries.getD r none with
      | some e => FileNode.mk e.name e.size e.is_dir []
      | none => FileNode.mk "" 0 false []
  | fuel + 1, r =>
    match entries.getD r none with
    | none => FileNode.mk "" 0 false []
    | some e =>
      let children :=
        if e.is_dir then
          ((childrenOfMft entries r).filter (fun c => !(c == r))).map
            (fun c => build_subtree entries fuel c)
        else []
      let size := if e.is_dir then sumSizes children else e.size
      FileNode.mk e.name size e.is_dir children

def mftRootSuffix : String := ":\\"

/-- scan_mft of src/mft_scanner.rs.  The volume/MFT acquisition is the mft
input: none when Volume::new or Mft::new fails (scan_mft then returns None),
otherwise the record stream and max_record. -/
def scan_mft (drive : String) (mft : Option (List MftFile × Nat))
    (prog : ScanProgress) : Option (FileNode × ScanProgress) :=
  match mft with
  | none => none
  | some (files, max_record) =>
    let (entries, prog1) :=
      mftIterate files (List.replicate (max_record + 1) none) prog
    let root_name := drive ++ mftRootSuffix
    let children :=
      (childrenOfMft entries ROOT_RECORD).map
        (fun c => build_subtree entries entries.length c)
    let root := FileNode.mk root_name (sumSizes children) true children
    some (root.sort_by_size, prog1)

/-! Navigation (the nav_path loop of get_directory_view in
src-tauri/src/commands.rs). -/

/-- The navigation loop of get_directory_view: starting at the root, follow
each index into the current node's children, returning None as soon as an
index is out of bounds.  The loop only reads through a borrowed reference;
nodes and sizes are untouched, which the purely functional type records. -/
def navStep (acc : Option FileNode) (idx : Nat) : Option FileNode :=
  match acc with
  | none => none
  | some node =>
    if h : idx < node.children.length then some (node.children.get ⟨idx, h⟩)
    else none

def navigate (root : FileNode) (nav_path : List Nat) : Option FileNode :=
  nav_path.foldl navStep (some root)

/-- The spec's reading of navigation ("yields a node by following indices
from the root; out-of-bounds indices at any step signal a navigation error"),
written as direct recursion to compare with the source loop. -/
def navigateSpec : FileNode → List Nat → Option FileNode
  | t, [] => some t
  | t, idx :: rest =>
    match t.children.get? idx with
    | none => none
    | some c => navigateSpec c rest

/-! Size-invariant lemmas for the bulk scanner. -/

theorem sizeOkList_cons (c : FileNode) (cs : List FileNode) :
    sizeOkList (c :: cs) = (sizeOk c && sizeOkList cs) := by
  simp [sizeOkList]

theorem sortedBySizeList_cons (c : FileNode) (cs : List FileNode) :
    sortedBySizeList (c :: cs) = (sortedBySize c && sortedBySizeList cs) := by
  simp [sortedBySizeList]

theorem partitionBulk_files_sizeOk (fs : MacFs) (p : List String)
    (rd : Option Nat) : ∀ (entries : List BulkEntry) (prog : ScanProgress),
    sizeOkList (partitionBulk fs p rd entries prog).1 = true := by
  intro entries
  induction entries with
  | nil => intro prog; rfl
  | cons e rest ih =>
      intro prog
      rw [partitionBulk]
      rcases hrec : partitionBulk fs p rd rest
        (if e.is_dir then { prog with dirs_scanned := prog.dirs_scanned + 1 }
         else { prog with files_scanned := prog.files_scanned + 1 }) with ⟨fns, des, prog2⟩
      have hfns : sizeOkList fns = true := by
        have := ih (if e.is_dir then { prog with dirs_scanned := prog.dirs_scanned + 1 }
          else { prog with files_scanned := prog.files_scanned + 1 })
        rwa [hrec] at this
      by_cases hd : e.is_dir
      · simp only [hd, if_true, hrec]
        split <;> exact hfns
      · simp only [hd, Bool.false_eq_true, if_false, hrec]
        simp [sizeOkList_cons, hfns, FileNode.new_file, sizeOk]
        rfl
  
theorem partitionFallback_files_sizeOk (fs : MacFs) (p : List String)
    (rd : Option Nat) : ∀ (items : List (Option (String × Bool × Nat)))
    (prog : ScanProgress),
    sizeOkList (partitionFallback fs p rd items prog).1 = true := by
  intro items
  induction items with
  | nil => intro prog; rfl
  | cons o rest ih =>
      intro prog
      match o with
      | none => rw [partitionFallback]; exact ih _
      | some (name, d, sz) =>
          rw [partitionFallback]
          by_cases hd : d
          · simp only [hd, if_true]
            rcases hrec : partitionFallback fs p rd rest
              { prog with dirs_scanned := prog.dirs_scanned + 1 } with ⟨fns, des, prog2⟩
            have hfns : sizeOkList fns = true := by
              have := ih { prog with dirs_scanned := prog.dirs_scanned + 1 }
              rwa [hrec] at this
            simp only [hrec]
            split <;> exact hfns
          · simp only [hd, Bool.false_eq_true, if_false]
            rcases hrec : partitionFallback fs p rd rest
              { prog with files_scanned := prog.files_scanned + 1 } with ⟨fns, des, prog2⟩
            have hfns : sizeOkList fns = true := by
              have := ih { prog with files_scanned := prog.files_scanned + 1 }
              rwa [hrec] at this
            simp [hrec, sizeOkList_cons, hfns, FileNode.new_file, sizeOk]
            rfl

theorem scanSubdirs_sizeOk
    (recurse : List String → ScanProgress → Except Unit (List FileNode × ScanProgress))
    (hrec : ∀ p prog ns prog', recurse p prog = .ok (ns, prog') →
      sizeOkList ns = true) :
    ∀ (des : List (String × List String)) (prog : ScanProgress)
      (ns : List FileNode) (prog' : ScanProgress),
      scanSubdirs recurse des prog = .ok (ns, prog') → sizeOkList ns = true := by
  intro des
  induction des with
  | nil =>
      intro prog ns prog' h
      rw [scanSubdirs] at h
      cases h
      rfl
  | cons d rest ih =>
      intro prog ns prog' h
      rcases d with ⟨name, child_path⟩
      rcases h1 : recurse child_path prog with e | ⟨children, prog1⟩
      · simp only [scanSubdirs, h1] at h
        cases h
      · simp only [scanSubdirs, h1] at h
        rcases h2 : scanSubdirs recurse rest prog1 with e | ⟨nodes, prog2⟩
        · rw [h2] at h; cases h
        · rw [h2] at h
          cases h
          rw [sizeOkList_cons, Bool.and_eq_true]
          refine ⟨?_, ih _ _ _ h2⟩
          rw [sizeOk, Bool.and_eq_true]
          exact ⟨by simp, hrec _ _ _ _ h1⟩

theorem read_dir_fallback_sizeOk
    (recurse : List String → ScanProgress → Except Unit (List FileNode × ScanProgress))
    (hrec : ∀ p prog ns prog', recurse p prog = .ok (ns, prog') →
      sizeOkList ns = true)
    (fs : MacFs) (dir_path : List String) (rd : Option Nat) (prog : ScanProgress)
    (ns : List FileNode) (prog' : ScanProgress)
    (h : read_dir_fallback recurse fs dir_path rd prog = .ok (ns, prog')) :
    sizeOkList ns = true := by
  rcases hitems : fs.readDir dir_path with _ | items
  · simp only [read_dir_fallback, hitems] at h
    cases h
    rfl
  · rcases hpart : partitionFallback fs dir_path rd items prog with ⟨fns, des, prog1⟩
    simp only [read_dir_fallback, hitems, hpart] at h
    rcases h2 : scanSubdirs recurse des prog1 with e | ⟨nodes, prog2⟩
    · rw [h2] at h; cases h
    · rw [h2] at h
      cases h
      apply sizeOkList_append
      · have := partitionFallback_files_sizeOk fs dir_path rd items prog
        rwa [hpart] at this
      · exact scanSubdirs_sizeOk recurse hrec _ _ _ _ h2

theorem scanLevel_sizeOk
    (recurse : List String → ScanProgress → Except Unit (List FileNode × ScanProgress))
    (hrec : ∀ p prog ns prog', recurse p prog = .ok (ns, prog') →
      sizeOkList ns = true)
    (fs : MacFs) (dir_path : List String) (rd : Option Nat) (prog : ScanProgress)
    (ns : List FileNode) (prog' : ScanProgress)
    (h : scanLevel recurse fs dir_path rd prog = .ok (ns, prog')) :
    sizeOkList ns = true := by
  rcases hb : read_dir_bulk_fs fs dir_path with e | o
  · simp only [scanLevel, hb] at h
    cases h
  · match o with
    | none =>
        simp only [scanLevel, hb] at h
        exact read_dir_fallback_sizeOk recurse hrec fs dir_path rd _ ns prog' h
    | some entries =>
        rcases hpart : partitionBulk fs dir_path rd entries
          { prog with current_path := pathStr dir_path } with ⟨fns, des, prog1⟩
        simp only [scanLevel, hb, hpart] at h
        rcases h2 : scanSubdirs recurse des prog1 with e | ⟨nodes, prog2⟩
        · rw [h2] at h; cases h
        · rw [h2] at h
          cases h
          apply sizeOkList_append
          · have := partitionBulk_files_sizeOk fs dir_path rd entries
              { prog with current_path := pathStr dir_path }
            rwa [hpart] at this
          · exact scanSubdirs_sizeOk recurse hrec _ _ _ _ h2

theorem scan_dir_recursive_sizeOk (fs : MacFs) (rd : Option Nat) :
    ∀ (remaining : Nat) (p : List String) (prog : ScanProgress)
      (ns : List FileNode) (prog' : ScanProgress),
      scan_dir_recursive fs rd remaining p prog = .ok (ns, prog') →
      sizeOkList ns = true := by
  intro remaining
  induction remaining with
  | zero =>
      intro p prog ns prog' h
      rw [scan_dir_recursive] at h
      cases h
      rfl
  | succ remaining ih =>
      intro p prog ns prog' h
      rw [scan_dir_recursive] at h
      exact scanLevel_sizeOk _ (fun q pr ms pr' hq => ih q pr ms pr' hq)
        fs p rd prog ns prog' h

/-- Every tree scan_bulk returns satisfies the directory-size invariant. -/
theorem scan_bulk_sizeOk (fs : MacFs) (root : List String) (prog : ScanProgress)
    (t : FileNode) (prog' : ScanProgress)
    (h : scan_bulk fs root prog = .ok (t, prog')) : sizeOk t = true := by
  rcases hs : scan_dir_recursive fs (fs.dev root) MAX_DEPTH root prog
    with e | ⟨children, prog1⟩
  · simp only [scan_bulk, hs] at h
    cases h
  · simp only [scan_bulk, hs] at h
    cases h
    apply sizeOk_sort_by_size
    rw [sizeOk, Bool.and_eq_true]
    exact ⟨by simp, scan_dir_recursive_sizeOk fs (fs.dev root) _ _ _ _ _ hs⟩

/-! Size-invariant and sortedness lemmas for the remaining producers. -/

theorem sizeOk_build_tree (root : List String)
    (entries : List (List String × Bool × Nat)) :
    sizeOk (build_tree root entries) = true := by
  rw [build_tree]
  exact sizeOk_sort_by_size _ (sizeOk_build_recursive root entries _ _ _ rfl)

theorem sizeOk_scan (root : List String)
    (walk : List (Option (List String × Bool × Nat))) (prog : ScanProgress) :
    sizeOk (scan root walk prog).1 = true := by
  rw [scan]
  rcases h : scanFold walk prog with ⟨flat, prog1⟩
  simpa using sizeOk_build_tree root flat

/-- After mftIterate, every directory row of the table has size 0 (the source
stores 0 for directories at the iteration phase). -/
def mftTableDirZero (entries : List (Option MftEntry)) : Prop :=
  ∀ o ∈ entries, ∀ e : MftEntry, o = some e → e.is_dir = true → e.size = 0

theorem mftIterate_dir_zero :
    ∀ (files : List MftFile) (entries : List (Option MftEntry))
      (prog : ScanProgress), mftTableDirZero entries →
      mftTableDirZero (mftIterate files entries prog).1 := by
  intro files
  induction files with
  | nil => intro entries prog h; exact h
  | cons f rest ih =>
      intro entries prog h
      rw [mftIterate]
      rcases hb : f.bestName with _ | ⟨name, parent_ref⟩
      · exact ih entries _ h
      · apply ih
        by_cases hn : f.number < entries.length
        · simp only [hn, if_true]
          intro o ho e hoe hdir
          rcases List.mem_or_eq_of_mem_set ho with hmem | rfl
          · exact h o hmem e hoe hdir
          · cases hoe
            simp only at hdir
            simp [hdir]
        · simp only [hn, if_false]
          exact h

theorem getD_eq_some_mem {entries : List (Option MftEntry)} {r : Nat}
    {e : MftEntry} (h : entries.getD r none = some e) : some e ∈ entries := by
  rw [List.getD_eq_getElem?_getD] at h
  rcases hq : entries[r]? with _ | o
  · rw [hq] at h; cases h
  · rw [hq] at h
    simp only [Option.getD_some] at h
    subst h
    exact List.getElem?_mem hq

theorem build_subtree_sizeOk (entries : List (Option MftEntry))
    (hz : mftTableDirZero entries) :
    ∀ (fuel r : Nat), sizeOk (build_subtree entries fuel r) = true := by
  intro fuel
  induction fuel with
  | zero =>
      intro r
      rw [build_subtree]
      rcases h : entries.getD r none with _ | e
      · rfl
      · by_cases hd : e.is_dir
        · have := hz (some e) (getD_eq_some_mem h) e rfl hd
          simp [sizeOk, sumSizes, this, hd]
          rfl
        · simp [sizeOk, sumSizes, hd]
          rfl
  | succ fuel ih =>
      intro r
      rw [build_subtree]
      rcases h : entries.getD r none with _ | e
      · rfl
      · by_cases hd : e.is_dir
        · simp only [hd, if_true]
          rw [sizeOk, Bool.and_eq_true]
          refine ⟨by simp, ?_⟩
          rw [sizeOkList_iff_mem]
          intro c hc
          rw [List.mem_map] at hc
          obtain ⟨r', _, rfl⟩ := hc
          exact ih r'
        · simp only [hd, Bool.false_eq_true, if_false]
          simp [sizeOk, hd]
          rfl

theorem scan_mft_sizeOk (drive : String) (mft : Option (List MftFile × Nat))
    (prog : ScanProgress) (t : FileNode) (prog' : ScanProgress)
    (h : scan_mft drive mft prog = some (t, prog')) : sizeOk t = true := by
  match mft with
  | none => cases h
  | some (files, max_record) =>
      rcases hit : mftIterate files (List.replicate (max_record + 1) none) prog
        with ⟨entries, prog1⟩
      have hz : mftTableDirZero entries := by
        have := mftIterate_dir_zero files (List.replicate (max_record + 1) none) prog
          (by intro o ho e hoe _; rw [List.eq_of_mem_replicate ho] at hoe; cases hoe)
        rwa [hit] at this
      simp only [scan_mft, hit] at h
      cases h
      apply sizeOk_sort_by_size
      rw [sizeOk, Bool.and_eq_true]
      refine ⟨by simp, ?_⟩
      rw [sizeOkList_iff_mem]
      intro c hc
      rw [List.mem_map] at hc
      obtain ⟨r', _, rfl⟩ := hc
      exact build_subtree_sizeOk entries hz _ r'

theorem build_tree_sorted (root : List String)
    (entries : List (List String × Bool × Nat)) :
    sortedBySize (build_tree root entries) = true := by
  rw [build_tree]
  exact sortedBySize_sort_by_size _

theorem build_tree_fixed (root : List String)
    (entries : List (List String × Bool × Nat)) :
    (build_tree root entries).sort_by_size = build_tree root entries := by
  rw [build_tree]
  exact sort_by_size_idem _

theorem scan_sorted_fixed (root : List String)
    (walk : List (Option (List String × Bool × Nat))) (prog : ScanProgress) :
    sortedBySize (scan root walk prog).1 = true ∧
      (scan root walk prog).1.sort_by_size = (scan root walk prog).1 := by
  rw [scan]
  rcases h : scanFold walk prog with ⟨flat, prog1⟩
  exact ⟨build_tree_sorted root flat, build_tree_fixed root flat⟩

theorem scan_bulk_sorted_fixed (fs : MacFs) (root : List String)
    (prog : ScanProgress) (t : FileNode) (prog' : ScanProgress)
    (h : scan_bulk fs root prog = .ok (t, prog')) :
    sortedBySize t = true ∧ t.sort_by_size = t := by
  rcases hs : scan_dir_recursive fs (fs.dev root) MAX_DEPTH root prog
    with e | ⟨children, prog1⟩
  · simp only [scan_bulk, hs] at h
    cases h
  · simp only [scan_bulk, hs] at h
    cases h
    exact ⟨sortedBySize_sort_by_size _, sort_by_size_idem _⟩

theorem scan_mft_sorted_fixed (drive : String) (mft : Option (List MftFile × Nat))
    (prog : ScanProgress) (t : FileNode) (prog' : ScanProgress)
    (h : scan_mft drive mft prog = some (t, prog')) :
    sortedBySize t = true ∧ t.sort_by_size = t := by
  match mft with
  | none => cases h
  | some (files, max_record) =>
      rcases hit : mftIterate files (List.replicate (max_record + 1) none) prog
        with ⟨entries, prog1⟩
      simp only [scan_mft, hit] at h
      cases h
      exact ⟨sortedBySize_sort_by_size _, sort_by_size_idem _⟩

/-! Navigation, generic-scan and record-loop lemmas. -/

theorem navStep_none : ∀ (rest : List Nat), rest.foldl navStep none = none := by
  intro rest
  induction rest with
  | nil => rfl
  | cons i r ih => rw [List.foldl_cons]; exact ih

/-- The iterative navigation loop agrees with the spec's recursive
index-following everywhere. -/
theorem navigate_eq_spec : ∀ (p : List Nat) (t : FileNode),
    navigate t p = navigateSpec t p := by
  intro p
  induction p with
  | nil => intro t; rfl
  | cons i rest ih =>
      intro t
      rw [navigate, List.foldl_cons]
      by_cases h : i < t.children.length
      · have : navStep (some t) i = some (t.children.get ⟨i, h⟩) := by
          rw [navStep]; rw [dif_pos h]
        rw [this]
        have h2 : navigate (t.children.get ⟨i, h⟩) rest =
            navigateSpec (t.children.get ⟨i, h⟩) rest := ih _
        rw [navigate] at h2
        rw [h2, navigateSpec, List.get?_eq_get h]
      · have : navStep (some t) i = none := by
          rw [navStep]; rw [dif_neg h]
        rw [this, navStep_none, navigateSpec,
          List.get?_eq_none.mpr (Nat.le_of_not_lt h)]

theorem navigate_oob (t : FileNode) (i : Nat) (rest : List Nat)
    (h : t.children.length ≤ i) : navigate t (i :: rest) = none := by
  rw [navigate, List.foldl_cons]
  have : navStep (some t) i = none := by
    rw [navStep]; rw [dif_neg (Nat.not_lt.mpr h)]
  rw [this, navStep_none]

theorem navigate_step (t : FileNode) (i : Nat) (rest : List Nat)
    (h : i < t.children.length) :
    navigate t (i :: rest) = navigate (t.children.get ⟨i, h⟩) rest := by
  rw [navigate, List.foldl_cons]
  have : navStep (some t) i = some (t.children.get ⟨i, h⟩) := by
    rw [navStep]; rw [dif_pos h]
  rw [this, navigate]

/-- A walk stream of only errors leaves no entries and counts each item. -/
theorem scanFold_all_errors : ∀ (walk : List (Option (List String × Bool × Nat)))
    (prog : ScanProgress), (∀ x ∈ walk, x = none) →
    scanFold walk prog = ([], { prog with errors := prog.errors + walk.length }) := by
  intro walk
  induction walk with
  | nil =>
      intro prog h
      cases prog
      simp [scanFold]
  | cons x rest ih =>
      intro prog h
      have hx : x = none := h x (by simp)
      subst hx
      rw [scanFold, ih _ (fun y hy => h y (by simp [hy]))]
      cases prog
      simp only [List.length_cons, Prod.mk.injEq, ScanProgress.mk.injEq]
      refine ⟨trivial, trivial, trivial, by omega, trivial⟩

theorem build_tree_nil (root : List String) :
    build_tree root [] = FileNode.mk (pathStr root) 0 true [] := by rfl

/-- C7 support: the three cursor-termination cases return the accumulated
entries unchanged. -/
theorem bulkRecords_stop (buf : List Nat) (n offset : Nat) (acc : List BulkEntry)
    (h : BULK_BUF_SIZE < offset + 4 ∨ readU32 buf offset = 0 ∨
      BULK_BUF_SIZE < offset + readU32 buf offset) :
    bulkRecords buf (n + 1) offset acc = .ok acc := by
  rw [bulkRecords]
  by_cases h4 : offset + 4 > BULK_BUF_SIZE
  · rw [if_pos h4]
  · rw [if_neg h4]
    have : readU32 buf offset = 0 ∨ offset + readU32 buf offset > BULK_BUF_SIZE := by
      rcases h with h | h | h
      · omega
      · exact Or.inl h
      · exact Or.inr h
    rw [if_pos this]

/-- C7 support: a successfully handled record (parsed or skipped) advances the
cursor by exactly entry_length, appending at most the one parsed entry. -/
theorem bulkRecords_advance (buf : List Nat) (n offset : Nat)
    (acc : List BulkEntry) (r : Option BulkEntry)
    (h4 : offset + 4 ≤ BULK_BUF_SIZE) (hlen : readU32 buf offset ≠ 0)
    (hov : offset + readU32 buf offset ≤ BULK_BUF_SIZE)
    (hp : parse_bulk_entry (sliceBytes buf offset (readU32 buf offset)) = .ok r) :
    bulkRecords buf (n + 1) offset acc =
      bulkRecords buf n (offset + readU32 buf offset) (acc ++ r.toList) := by
  rw [bulkRecords]
  rw [if_neg (by omega)]
  rw [if_neg (by push_neg; exact ⟨hlen, by omega⟩)]
  rw [hp]
  cases r with
  | none => simp
  | some e => simp

/-! Partition characterization and depth-cap lemmas. -/

/-- Full characterization of the bulk partition loop: files become file nodes
in entry order; only same-device subdirectories are queued for recursion;
every entry is counted (cross-device directories included); errors and
current_path are untouched. -/
theorem partitionBulk_spec (fs : MacFs) (p : List String) (rd : Option Nat) :
    ∀ (entries : List BulkEntry) (prog : ScanProgress),
      partitionBulk fs p rd entries prog =
        ((entries.filter (fun e => !e.is_dir)).map
            (fun e => FileNode.new_file e.name e.size),
         (entries.filter (fun e => e.is_dir && keepDev fs p rd e.name)).map
            (fun e => (e.name, p ++ [e.name])),
         { prog with
             files_scanned :=
               prog.files_scanned + (entries.filter (fun e => !e.is_dir)).length,
             dirs_scanned :=
               prog.dirs_scanned + (entries.filter (fun e => e.is_dir)).length }) := by
  intro entries
  induction entries with
  | nil => intro prog; cases prog; simp [partitionBulk]
  | cons e rest ih =>
      intro prog
      rw [partitionBulk]
      by_cases hd : e.is_dir
      · simp only [hd, if_true, ih]
        by_cases hk : keepDev fs p rd e.name
        · cases prog
          simp [List.filter_cons, hd, hk, Prod.mk.injEq, ScanProgress.mk.injEq]
          omega
        · cases prog
          simp [List.filter_cons, hd, hk, Prod.mk.injEq, ScanProgress.mk.injEq]
          omega
      · simp only [hd, Bool.false_eq_true, if_false, ih]
        cases prog
        simp [List.filter_cons, hd, Prod.mk.injEq, ScanProgress.mk.injEq]
        omega

theorem partitionFallback_files_children (fs : MacFs) (p : List String)
    (rd : Option Nat) : ∀ (items : List (Option (String × Bool × Nat)))
    (prog : ScanProgress) (n : FileNode),
    n ∈ (partitionFallback fs p rd items prog).1 → n.children = [] := by
  intro items
  induction items with
  | nil => intro prog n hn; cases hn
  | cons o rest ih =>
      intro prog n hn
      match o with
      | none =>
          rw [partitionFallback] at hn
          exact ih _ n hn
      | some (name, d, sz) =>
          rw [partitionFallback] at hn
          by_cases hd : d
          · simp only [hd, if_true] at hn
            rcases hrec : partitionFallback fs p rd rest
              { prog with dirs_scanned := prog.dirs_scanned + 1 } with ⟨fns, des, prog2⟩
            rw [hrec] at hn
            have : n ∈ fns := by
              rcases hk : keepDev fs p rd name <;> simp [hk] at hn <;> exact hn
            have hf := ih { prog with dirs_scanned := prog.dirs_scanned + 1 } n
            rw [hrec] at hf
            exact hf this
          · simp only [hd, Bool.false_eq_true, if_false] at hn
            rcases hrec : partitionFallback fs p rd rest
              { prog with files_scanned := prog.files_scanned + 1 } with ⟨fns, des, prog2⟩
            rw [hrec] at hn
            rcases List.mem_cons.mp hn with rfl | hmem
            · rfl
            · have hf := ih { prog with files_scanned := prog.files_scanned + 1 } n
              rw [hrec] at hf
              exact hf hmem

/-- When every child scan yields no nodes and an unchanged progress (as at an
exhausted depth budget), each queued subdirectory becomes an empty directory
node of size 0. -/
theorem scanSubdirs_base
    (recurse : List String → ScanProgress → Except Unit (List FileNode × ScanProgress))
    (hrec : ∀ q pr, recurse q pr = .ok ([], pr)) :
    ∀ (des : List (String × List String)) (prog : ScanProgress),
      scanSubdirs recurse des prog =
        .ok (des.map (fun d => FileNode.mk d.1 0 true []), prog) := by
  intro des
  induction des with
  | nil => intro prog; rfl
  | cons d rest ih =>
      intro prog
      rcases d with ⟨name, cp⟩
      simp [scanSubdirs, hrec, ih, sumSizes]

/-- A directory entered with zero budget (source depth ≥ MAX_DEPTH) is not
enumerated at all: no children, progress untouched, no oracle consulted. -/
theorem scan_dir_zero (fs : MacFs) (rd : Option Nat) (p : List String)
    (prog : ScanProgress) : scan_dir_recursive fs rd 0 p prog = .ok ([], prog) := rfl

/-- With one unit of budget left (source depth MAX_DEPTH - 1) the level itself
is processed, but every node it returns has empty children: subdirectories are
not descended into. -/
theorem scan_dir_one_children_empty (fs : MacFs) (rd : Option Nat)
    (p : List String) (prog : ScanProgress) (ns : List FileNode)
    (prog' : ScanProgress)
    (h : scan_dir_recursive fs rd 1 p prog = .ok (ns, prog')) :
    ∀ n ∈ ns, n.children = [] := by
  have hrec : ∀ (q : List String) (pr : ScanProgress),
      scan_dir_recursive fs rd 0 q pr = .ok ([], pr) := fun q pr => rfl
  rw [scan_dir_recursive] at h
  rcases hb : read_dir_bulk_fs fs p with e | o
  · simp only [scanLevel, hb] at h
    cases h
  · match o with
    | none =>
        simp only [scanLevel, hb] at h
        rcases hitems : fs.readDir p with _ | items
        · simp only [read_dir_fallback, hitems] at h
          cases h
          intro n hn
          cases hn
        · rcases hpart : partitionFallback fs p rd items
            { prog with current_path := pathStr p } with ⟨fns, des, prog1⟩
          simp only [read_dir_fallback, hitems, hpart] at h
          rw [scanSubdirs_base _ hrec] at h
          cases h
          intro n hn
          rcases List.mem_append.mp hn with hf | hd
          · have := partitionFallback_files_children fs p rd items
              { prog with current_path := pathStr p } n
            rw [hpart] at this
            exact this hf
          · rw [List.mem_map] at hd
            obtain ⟨d, _, rfl⟩ := hd
            rfl
    | some entries =>
        simp only [scanLevel, hb, partitionBulk_spec] at h
        rw [scanSubdirs_base _ hrec] at h
        cases h
        intro n hn
        rcases List.mem_append.mp hn with hf | hd
        · rw [List.mem_map] at hf
          obtain ⟨e, _, rfl⟩ := hf
          rfl
        · rw [List.mem_map] at hd
          obtain ⟨d, _, rfl⟩ := hd
          rfl

/-! Totality of the record parser on sufficiently long slices, and
error-counting lemmas for the bulk path. -/

theorem readU32P_ok (data : List Nat) (off : Nat) (h : off + 4 ≤ data.length) :
    readU32P data off = .ok (readU32 data off) := by
  rw [readU32P, if_pos h]

theorem readU64P_ok (data : List Nat) (off : Nat) (h : off + 8 ≤ data.length) :
    readU64P data off =
      .ok (readU32 data off + 4294967296 * readU32 data (off + 4)) := by
  rw [readU64P, if_pos h]

theorem parse_error_attr_total (data : List Nat) (c : Nat)
    (h : 28 ≤ data.length) : ∃ r, parse_error_attr data c = .ok r := by
  rw [parse_error_attr]
  by_cases hc : c &&& ATTR_CMN_ERROR ≠ 0
  · rw [if_pos hc]
    simp only [readU32P_ok data 24 (by omega)]
    by_cases herr : readU32 data 24 ≠ 0
    · rw [if_pos herr]
      exact ⟨none, rfl⟩
    · rw [if_neg herr]
      exact ⟨some 28, rfl⟩
  · rw [if_neg hc]
    exact ⟨some 24, rfl⟩

theorem parse_error_attr_pos (data : List Nat) (c pos : Nat)
    (h : parse_error_attr data c = .ok (some pos)) : pos = 24 ∨ pos = 28 := by
  rw [parse_error_attr] at h
  by_cases hc : c &&& ATTR_CMN_ERROR ≠ 0
  · rw [if_pos hc] at h
    rcases hr : readU32P data 24 with e | err
    · simp only [hr] at h
      cases h
    · simp only [hr] at h
      by_cases herr : err ≠ 0
      · rw [if_pos herr] at h; cases h
      · rw [if_neg herr] at h
        cases h
        exact Or.inr rfl
  · rw [if_neg hc] at h
    cases h
    exact Or.inl rfl

theorem parse_after_name_bit_total (data : List Nat) (f c pos : Nat)
    (hlen : 48 ≤ data.length) (hpos : pos ≤ 28) :
    ∃ r, parse_after_name_bit data f c pos = .ok r := by
  rw [parse_after_name_bit]
  simp only [readU32P_ok data pos (by omega), readU32P_ok data (pos + 4) (by omega)]
  by_cases hneg : ((pos : Int) + asI32 (readU32 data pos)) < 0
  · rw [if_pos hneg]
    exact ⟨none, rfl⟩
  · rw [if_neg hneg]
    by_cases hin : ((pos : Int) + asI32 (readU32 data pos)).toNat < data.length
    · rw [if_pos hin]
      by_cases hdot :
          decodeBytes ((data.drop ((pos : Int) + asI32 (readU32 data pos)).toNat).takeWhile
            (fun b => b != 0)) = "." ∨
          decodeBytes ((data.drop ((pos : Int) + asI32 (readU32 data pos)).toNat).takeWhile
            (fun b => b != 0)) = ".."
      · rw [if_pos hdot]
        exact ⟨none, rfl⟩
      · rw [if_neg hdot]
        by_cases hobj : c &&& ATTR_CMN_OBJTYPE = 0
        · rw [if_pos hobj]
          exact ⟨none, rfl⟩
        · rw [if_neg hobj]
          simp only [readU32P_ok data (pos + 8) (by omega)]
          by_cases hsz : ((readU32 data (pos + 8) == VDIR) = false ∧
              f &&& ATTR_FILE_DATALENGTH ≠ 0)
          · rw [if_pos hsz]
            simp only [readU64P_ok data (pos + 8 + 4) (by omega)]
            exact ⟨_, rfl⟩
          · rw [if_neg hsz]
            exact ⟨_, rfl⟩
    · rw [if_neg hin]
      exact ⟨none, rfl⟩

/-- parse_bulk_entry cannot panic on a record slice of at least 48 bytes:
every conditional field it can reach lies within such a slice. -/
theorem parse_bulk_entry_total_48 (data : List Nat) (h : 48 ≤ data.length) :
    ∃ r, parse_bulk_entry data = .ok r := by
  simp only [parse_bulk_entry]
  rw [if_neg (by omega)]
  obtain ⟨r1, hr1⟩ := parse_error_attr_total data (readU32 data 4) (by omega)
  match r1 with
  | none =>
      simp only [hr1]
      exact ⟨none, rfl⟩
  | some pos =>
      simp only [hr1]
      by_cases hn : readU32 data 4 &&& ATTR_CMN_NAME = 0
      · rw [if_pos hn]
        exact ⟨none, rfl⟩
      · rw [if_neg hn]
        have hpos : pos ≤ 28 := by
          rcases parse_error_attr_pos data _ _ hr1 with h' | h' <;> omega
        exact parse_after_name_bit_total data _ _ pos h hpos

theorem partitionBulk_all_files (fs : MacFs) (p : List String) (rd : Option Nat)
    (entries : List BulkEntry) (prog : ScanProgress)
    (hf : ∀ e ∈ entries, e.is_dir = false) :
    partitionBulk fs p rd entries prog =
      (entries.map (fun e => FileNode.new_file e.name e.size), [],
       { prog with files_scanned := prog.files_scanned + entries.length }) := by
  rw [partitionBulk_spec]
  have h1 : entries.filter (fun e => !e.is_dir) = entries :=
    List.filter_eq_self.mpr (fun e he => by simp [hf e he])
  have h2 : entries.filter (fun e => e.is_dir && keepDev fs p rd e.name) = [] :=
    List.filter_eq_nil_iff.mpr (fun e he => by simp [hf e he])
  have h3 : entries.filter (fun e => e.is_dir) = [] :=
    List.filter_eq_nil_iff.mpr (fun e he => by simp [hf e he])
  rw [h1, h2, h3]
  cases prog
  simp

/-- A bulk-read directory with no subdirectories: the scan returns exactly the
file nodes, counts exactly the files, and leaves errors and dirs_scanned
unchanged (skipped records in particular count nothing). -/
theorem scan_dir_bulk_files (fs : MacFs) (rd : Option Nat) (b : Nat)
    (p : List String) (prog : ScanProgress) (entries : List BulkEntry)
    (hb : read_dir_bulk_fs fs p = .ok (some entries))
    (hf : ∀ e ∈ entries, e.is_dir = false) :
    scan_dir_recursive fs rd (b + 1) p prog =
      .ok (entries.map (fun e => FileNode.new_file e.name e.size),
        { prog with current_path := pathStr p,
                    files_scanned := prog.files_scanned + entries.length }) := by
  rw [scan_dir_recursive]
  simp only [scanLevel, hb,
    partitionBulk_all_files fs p rd entries _ hf]
  rw [scanSubdirs]
  simp

/-- When nothing under the root can be enumerated on the macOS path (directory
open fails, and so does the readdir fallback), scan_bulk still returns a tree:
an empty directory node named after the root, with one error counted. -/
theorem scan_bulk_unreachable (fs : MacFs) (root : List String)
    (prog : ScanProgress) (h1 : fs.bulk root = none)
    (h2 : fs.readDir root = none) :
    scan_bulk fs root prog =
      .ok (FileNode.mk (pathName root) 0 true [],
        { prog with current_path := pathStr root, errors := prog.errors + 1 }) := by
  have hM : MAX_DEPTH = 511 + 1 := rfl
  rw [scan_bulk, hM, scan_dir_recursive]
  simp only [scanLevel, read_dir_bulk_fs, h1, read_dir_fallback, h2]
  simp [FileNode.sort_by_size, sortBySizeList, sumSizes, List.insertionSort]

/-! Concrete fixtures used by the claim counterexamples and witnesses. -/

def prog0 : ScanProgress := ⟨0, 0, 0, ""⟩

/-- A 28-byte bulk record whose returned attributes carry ATTR_CMN_ERROR with
a nonzero error code 13: parse_bulk_entry skips it. -/
def recErr : List Nat :=
  [28, 0, 0, 0, 0, 0, 0, 32, 0, 0, 0, 0, 0, 0, 0, 0, 0, 0, 0, 0, 0, 0, 0, 0,
   13, 0, 0, 0]

/-- A 46-byte bulk record for a regular file named "a" of 7 bytes:
returned commonattr NAME|OBJTYPE, fileattr DATALENGTH, the attrreference at
offset 24 pointing 20 bytes ahead to the NUL-terminated name. -/
def recFileA : List Nat :=
  [46, 0, 0, 0, 9, 0, 0, 0, 0, 0, 0, 0, 0, 0, 0, 0, 0, 2, 0, 0, 0, 0, 0, 0,
   20, 0, 0, 0, 2, 0, 0, 0, 1, 0, 0, 0, 7, 0, 0, 0, 0, 0, 0, 0, 97, 0]

/-- A 38-byte bulk record for a directory named "m" (objtype 2, no data
length). -/
def recDirM : List Nat :=
  [38, 0, 0, 0, 9, 0, 0, 0, 0, 0, 0, 0, 0, 0, 0, 0, 0, 0, 0, 0, 0, 0, 0, 0,
   12, 0, 0, 0, 2, 0, 0, 0, 2, 0, 0, 0, 109, 0]

/-- A 24-byte record that announces the error attribute but is truncated
before it: reading the error code indexes past the slice. -/
def recTrunc : List Nat :=
  [24, 0, 0, 0, 0, 0, 0, 32, 0, 0, 0, 0, 0, 0, 0, 0, 0, 0, 0, 0, 0, 0, 0, 0]

/-- Root directory r whose single bulk call returns the skipped error record
followed by file a. -/
def fsSkip : MacFs :=
  { bulk := fun p => if p = ["r"] then some [(2, recErr ++ recFileA)] else none
  , readDir := fun _ => none
  , dev := fun _ => some 1 }

/-- Root directory r on device 1 holding one subdirectory m that a stat
reports on device 2. -/
def fsCross : MacFs :=
  { bulk := fun p => if p = ["r"] then some [(1, recDirM)] else none
  , readDir := fun _ => none
  , dev := fun p => if p = ["r"] then some 1 else some 2 }

/-- Directory d holding one file, for probing the depth cap. -/
def fsDepth : MacFs :=
  { bulk := fun p => if p = ["d"] then some [(1, recFileA)] else none
  , readDir := fun _ => none
  , dev := fun _ => some 1 }

/-- A filesystem on which nothing can be enumerated. -/
def fsNone : MacFs :=
  { bulk := fun _ => none, readDir := fun _ => none, dev := fun _ => none }

/-- A two-record MFT: the root record 5 (self-parented) and file f of
42 bytes under it. -/
def mftFiles : List MftFile :=
  [⟨5, true, some ("vol", 5), 0⟩, ⟨6, false, some ("f", 5), 42⟩]

def mftIn : Option (List MftFile × Nat) := some (mftFiles, 6)

/-- A small tree for navigation: r holds file a (1 B) and directory b holding
file c (2 B). -/
def navTree : FileNode :=
  FileNode.mk "r" 3 true
    [FileNode.mk "a" 1 false [],
     FileNode.mk "b" 2 true [FileNode.mk "c" 2 false []]]

/-! The claims. -/

/-- C1: every tree produced by any scanner (generic scan and build_tree,
scan_bulk, scan_mft), after any sequence of sort_by_size/sort_by_name calls,
has every directory node's size equal to the sum of its children's sizes. -/
theorem C1_size_invariant :
    (∀ (root : List String) (entries : List (List String × Bool × Nat))
      (ops : List Bool), sizeOk (applySorts ops (build_tree root entries)) = true) ∧
    (∀ (root : List String) (walk : List (Option (List String × Bool × Nat)))
      (prog : ScanProgress) (ops : List Bool),
      sizeOk (applySorts ops (scan root walk prog).1) = true) ∧
    (∀ (fs : MacFs) (root : List String) (prog : ScanProgress) (t : FileNode)
      (prog' : ScanProgress) (ops : List Bool),
      scan_bulk fs root prog = .ok (t, prog') →
      sizeOk (applySorts ops t) = true) ∧
    (∀ (drive : String) (mft : Option (List MftFile × Nat)) (prog : ScanProgress)
      (t : FileNode) (prog' : ScanProgress) (ops : List Bool),
      scan_mft drive mft prog = some (t, prog') →
      sizeOk (applySorts ops t) = true) := by
  refine ⟨?_, ?_, ?_, ?_⟩
  · intro root entries ops
    exact sizeOk_applySorts ops _ (sizeOk_build_tree root entries)
  · intro root walk prog ops
    exact sizeOk_applySorts ops _ (sizeOk_scan root walk prog)
  · intro fs root prog t prog' ops h
    exact sizeOk_applySorts ops t (scan_bulk_sizeOk fs root prog t prog' h)
  · intro drive mft prog t prog' ops h
    exact sizeOk_applySorts ops t (scan_mft_sizeOk drive mft prog t prog' h)

/-- C1 witness: the invariant evaluated on concrete runs of all four
producers. -/
theorem C1_size_invariant_witness :
    sizeOk (applySorts [true, false] (build_tree ["r"] [(["r", "a"], false, 3)])) =
      true ∧
    sizeOk (applySorts [false] (scan ["r"] [some (["r", "a"], false, 3)] prog0).1) =
      true ∧
    sizeOk (applySorts [true]
      (FileNode.mk "r" 7 true [FileNode.mk "a" 7 false []])) = true ∧
    sizeOk (applySorts []
      (FileNode.mk "C:\\" 42 true [FileNode.mk "f" 42 false []])) = true := by
  refine ⟨C1_size_invariant.1 ["r"] [(["r", "a"], false, 3)] [true, false],
    C1_size_invariant.2.1 ["r"] [some (["r", "a"], false, 3)] prog0 [false], ?_, ?_⟩
  · exact C1_size_invariant.2.2.1 fsSkip ["r"] prog0 _ ⟨1, 0, 0, "r"⟩ [true] (by rfl)
  · exact C1_size_invariant.2.2.2 "C" mftIn prog0 _ ⟨2, 0, 0, ""⟩ [] (by rfl)

/-- C2: the scan entry points return a tree to the caller unconditionally
(their types return a tree, not a Result); when nothing under the root can be
enumerated — a walk stream of only errors for the generic scan, or failing
open and readdir for the bulk scanner's root — the result is a directory node
with empty children named after the requested root, and errors is nonzero. -/
theorem C2_root_unreachable :
    (∀ (root : List String) (walk : List (Option (List String × Bool × Nat)))
      (prog : ScanProgress), walk ≠ [] → (∀ x ∈ walk, x = none) →
      (scan root walk prog).1 = FileNode.mk (pathStr root) 0 true [] ∧
        0 < (scan root walk prog).2.errors) ∧
    (∀ (fs : MacFs) (root : List String) (prog : ScanProgress),
      fs.bulk root = none → fs.readDir root = none →
      scan_bulk fs root prog =
        .ok (FileNode.mk (pathName root) 0 true [],
          { prog with current_path := pathStr root,
                      errors := prog.errors + 1 })) := by
  constructor
  · intro root walk prog hne hall
    have hf := scanFold_all_errors walk prog hall
    constructor
    · simp only [scan, hf]
      exact build_tree_nil root
    · simp only [scan, hf]
      have : 0 < walk.length := List.length_pos.mpr hne
      omega
  · intro fs root prog h1 h2
    exact scan_bulk_unreachable fs root prog h1 h2

/-- C2 witness: an all-error one-item walk, and a root that can be neither
bulk-opened nor read. -/
theorem C2_root_unreachable_witness :
    ((scan ["x"] [none] prog0).1 = FileNode.mk (pathStr ["x"]) 0 true [] ∧
      0 < (scan ["x"] [none] prog0).2.errors) ∧
    scan_bulk fsNone ["x"] prog0 =
      .ok (FileNode.mk (pathName ["x"]) 0 true [],
        { prog0 with current_path := pathStr ["x"], errors := prog0.errors + 1 }) :=
  ⟨C2_root_unreachable.1 ["x"] [none] prog0 (by simp) (by simp),
   C2_root_unreachable.2 fsNone ["x"] prog0 rfl rfl⟩

/-- C3 counterexample: a buffer whose first record carries a nonzero error
attribute.  The record is skipped and the following file record of the same
buffer is still parsed, but Progress.errors stays 0 — the claimed increment
of Progress.errors never happens (read_dir_bulk does not even receive the
progress handle). -/
theorem C3_counterexample :
    scan_bulk fsSkip ["r"] prog0 =
      .ok (FileNode.mk "r" 7 true [FileNode.mk "a" 7 false []],
        ⟨1, 0, 0, "r"⟩) ∧
    (⟨1, 0, 0, "r"⟩ : ScanProgress).errors ≠ prog0.errors + 1 :=
  ⟨by rfl, by decide⟩

/-- C3 amended: a bulk record with a nonzero error attribute (or otherwise
malformed, parsing to None) is skipped and parsing continues with the
subsequent records of the same buffer at cursor offset + entry_length; the
skip leaves Progress.errors unchanged — in particular a bulk-read directory
of files ends with errors and dirs_scanned exactly as before the call,
whatever records were skipped in its buffers. -/
theorem C3_amended :
    (∀ (buf : List Nat) (n offset : Nat) (acc : List BulkEntry),
      offset + 4 ≤ BULK_BUF_SIZE → readU32 buf offset ≠ 0 →
      offset + readU32 buf offset ≤ BULK_BUF_SIZE →
      parse_bulk_entry (sliceBytes buf offset (readU32 buf offset)) = .ok none →
      bulkRecords buf (n + 1) offset acc =
        bulkRecords buf n (offset + readU32 buf offset) acc) ∧
    (∀ (fs : MacFs) (rd : Option Nat) (b : Nat) (p : List String)
      (prog : ScanProgress) (entries : List BulkEntry),
      read_dir_bulk_fs fs p = .ok (some entries) →
      (∀ e ∈ entries, e.is_dir = false) →
      scan_dir_recursive fs rd (b + 1) p prog =
        .ok (entries.map (fun e => FileNode.new_file e.name e.size),
          { prog with current_path := pathStr p,
                      files_scanned := prog.files_scanned + entries.length })) := by
  constructor
  · intro buf n offset acc h4 hlen hov hp
    have := bulkRecords_advance buf n offset acc none h4 hlen hov hp
    simpa using this
  · intro fs rd b p prog entries hb hf
    exact scan_dir_bulk_files fs rd b p prog entries hb hf

/-- C3 amended witness: the skip record advances the cursor by its
entry_length 28 adding nothing, and the fsSkip directory scan counts one file
and zero errors. -/
theorem C3_amended_witness :
    bulkRecords (recErr ++ recFileA) 2 0 [] =
      bulkRecords (recErr ++ recFileA) 1 28 [] ∧
    scan_dir_recursive fsSkip (some 1) 1 ["r"] prog0 =
      .ok ([FileNode.new_file "a" 7],
        { prog0 with current_path := pathStr ["r"],
                     files_scanned := prog0.files_scanned + 1 }) :=
  ⟨C3_amended.1 (recErr ++ recFileA) 1 0 [] (by decide) (by decide) (by decide)
      (by rfl),
   C3_amended.2 fsSkip (some 1) 0 ["r"] prog0 [⟨"a", false, 7⟩] (by rfl)
      (by decide)⟩

/-- C4 counterexample: root r on device 1 with one subdirectory m whose stat
reports device 2.  The scan does not descend into m and counts no error, but
m is omitted from the tree entirely — no node for it is reported at all, so
its size is not "reported as 0" as claimed. -/
theorem C4_counterexample :
    scan_bulk fsCross ["r"] prog0 =
      .ok (FileNode.mk "r" 0 true [], ⟨0, 1, 0, "r"⟩) ∧
    ¬∃ c, c ∈ (FileNode.mk "r" 0 true []).children ∧ c.size = 0 ∧ c.name = "m" :=
  ⟨by rfl, by simp [FileNode.children]⟩

/-- C4 amended: a subdirectory whose device differs from the root's is not
queued for recursion (so it is never descended) and contributes no node to
the parent's children; it is still counted in dirs_scanned, and the skip
leaves errors, files_scanned and current_path unchanged.  The recursion list
and file list of the partition loop are exactly the characterization below. -/
theorem C4_amended (fs : MacFs) (p : List String) (rd : Nat) :
    ∀ (entries : List BulkEntry) (prog : ScanProgress),
      partitionBulk fs p (some rd) entries prog =
        ((entries.filter (fun e => !e.is_dir)).map
            (fun e => FileNode.new_file e.name e.size),
         (entries.filter
            (fun e => e.is_dir && keepDev fs p (some rd) e.name)).map
            (fun e => (e.name, p ++ [e.name])),
         { prog with
             files_scanned :=
               prog.files_scanned + (entries.filter (fun e => !e.is_dir)).length,
             dirs_scanned :=
               prog.dirs_scanned + (entries.filter (fun e => e.is_dir)).length }) :=
  partitionBulk_spec fs p (some rd)

/-- C6 counterexample: directory d whose bulk read would yield one file, but
entered at depth exactly MAX_DEPTH (remaining budget MAX_DEPTH - MAX_DEPTH
= 0).  Contrary to the claim, its own level is not processed: no entries are
enumerated, no node is produced, and progress is untouched. -/
theorem C6_counterexample :
    read_dir_bulk_fs fsDepth ["d"] = .ok (some [⟨"a", false, 7⟩]) ∧
    scan_dir_recursive fsDepth (some 1) (MAX_DEPTH - MAX_DEPTH) ["d"] prog0 =
      .ok ([], prog0) :=
  ⟨by rfl, rfl⟩

/-- C6 amended: recursion is bounded by the fixed cap 512: a directory
reached at depth ≥ MAX_DEPTH returns immediately with no children and no
progress or oracle activity, while a directory at depth MAX_DEPTH - 1 has its
own level processed but every node it returns has empty children (its
subdirectories are not descended). -/
theorem C6_amended :
    (∀ (fs : MacFs) (rd : Option Nat) (p : List String) (prog : ScanProgress)
      (d : Nat), MAX_DEPTH ≤ d →
      scan_dir_recursive fs rd (MAX_DEPTH - d) p prog = .ok ([], prog)) ∧
    (∀ (fs : MacFs) (rd : Option Nat) (p : List String) (prog : ScanProgress)
      (ns : List FileNode) (prog' : ScanProgress),
      scan_dir_recursive fs rd (MAX_DEPTH - (MAX_DEPTH - 1)) p prog =
        .ok (ns, prog') →
      ∀ n ∈ ns, n.children = []) := by
  constructor
  · intro fs rd p prog d hd
    have hz : MAX_DEPTH - d = 0 := by
      have : MAX_DEPTH = 512 := rfl
      omega
    rw [hz]
    rfl
  · intro fs rd p prog ns prog' h
    have h1 : MAX_DEPTH - (MAX_DEPTH - 1) = 1 := rfl
    rw [h1] at h
    exact scan_dir_one_children_empty fs rd p prog ns prog' h

/-- C6 amended witness: the fsDepth directory at the cap yields nothing, and
one level below the cap its file appears with no children beneath. -/
theorem C6_amended_witness :
    scan_dir_recursive fsDepth (some 1) (MAX_DEPTH - 512) ["d"] prog0 =
      .ok ([], prog0) ∧
    (FileNode.mk "a" 7 false []).children = [] :=
  ⟨C6_amended.1 fsDepth (some 1) ["d"] prog0 512 (by decide),
   C6_amended.2 fsDepth (some 1) ["d"] prog0 [FileNode.mk "a" 7 false []]
     ⟨1, 0, 0, "d"⟩ (by rfl) (FileNode.mk "a" 7 false []) (by simp)⟩

/-- C7: between records the cursor advances by exactly entry_length (the
parsed entry, if any, appended); a record with entry_length 0 or one that
would overflow the 256 KB buffer (or a cursor with no room for the length
field) terminates the current buffer's record loop, returning the previously
parsed entries unchanged. -/
theorem C7_cursor_advance :
    (∀ (buf : List Nat) (n offset : Nat) (acc : List BulkEntry),
      BULK_BUF_SIZE < offset + 4 ∨ readU32 buf offset = 0 ∨
        BULK_BUF_SIZE < offset + readU32 buf offset →
      bulkRecords buf (n + 1) offset acc = .ok acc) ∧
    (∀ (buf : List Nat) (n offset : Nat) (acc : List BulkEntry)
      (r : Option BulkEntry),
      offset + 4 ≤ BULK_BUF_SIZE → readU32 buf offset ≠ 0 →
      offset + readU32 buf offset ≤ BULK_BUF_SIZE →
      parse_bulk_entry (sliceBytes buf offset (readU32 buf offset)) = .ok r →
      bulkRecords buf (n + 1) offset acc =
        bulkRecords buf n (offset + readU32 buf offset) (acc ++ r.toList)) :=
  ⟨bulkRecords_stop, bulkRecords_advance⟩

/-- C7 witness: a zero entry_length stops the loop keeping the accumulated
entry, and the file record advances the cursor by its length 46. -/
theorem C7_cursor_advance_witness :
    bulkRecords [] 1 0 [⟨"x", false, 1⟩] = .ok [⟨"x", false, 1⟩] ∧
    bulkRecords recFileA 1 0 [] = bulkRecords recFileA 0 46 [⟨"a", false, 7⟩] :=
  ⟨C7_cursor_advance.1 [] 0 0 [⟨"x", false, 1⟩] (by decide),
   C7_cursor_advance.2 recFileA 0 0 [] (some ⟨"a", false, 7⟩) (by decide)
     (by decide) (by decide) (by rfl)⟩

/-- C8: the navigation loop follows child indices from the root and agrees
everywhere with the recursive index-following of the spec; starting point,
in-bounds step and out-of-bounds step behave as claimed, and navigation is a
pure read (the model returns the borrowed node and never rebuilds the
tree). -/
theorem C8_navigation :
    (∀ (t : FileNode) (p : List Nat), navigate t p = navigateSpec t p) ∧
    (∀ t : FileNode, navigate t [] = some t) ∧
    (∀ (t : FileNode) (i : Nat) (rest : List Nat) (h : i < t.children.length),
      navigate t (i :: rest) = navigate (t.children.get ⟨i, h⟩) rest) ∧
    (∀ (t : FileNode) (i : Nat) (rest : List Nat), t.children.length ≤ i →
      navigate t (i :: rest) = none) :=
  ⟨fun t p => navigate_eq_spec p t, fun _ => rfl, navigate_step, navigate_oob⟩

/-- C8 witness: navigation on the concrete navTree, with an out-of-bounds
index discharged concretely. -/
theorem C8_navigation_witness :
    navigate navTree [1, 0] = navigateSpec navTree [1, 0] ∧
    navigate navTree [] = some navTree ∧
    navigate navTree [5] = none :=
  ⟨C8_navigation.1 navTree [1, 0], C8_navigation.2.1 navTree,
   C8_navigation.2.2.2 navTree 5 [] (by decide)⟩

/-- C9: every scanner entry point (generic scan and its build_tree core,
scan_bulk, scan_mft) returns a tree that is size-sorted descending at every
level and is an exact fixed point of sort_by_size. -/
theorem C9_sorted_output :
    (∀ (root : List String) (entries : List (List String × Bool × Nat)),
      sortedBySize (build_tree root entries) = true ∧
        (build_tree root entries).sort_by_size = build_tree root entries) ∧
    (∀ (root : List String) (walk : List (Option (List String × Bool × Nat)))
      (prog : ScanProgress),
      sortedBySize (scan root walk prog).1 = true ∧
        (scan root walk prog).1.sort_by_size = (scan root walk prog).1) ∧
    (∀ (fs : MacFs) (root : List String) (prog : ScanProgress) (t : FileNode)
      (prog' : ScanProgress), scan_bulk fs root prog = .ok (t, prog') →
      sortedBySize t = true ∧ t.sort_by_size = t) ∧
    (∀ (drive : String) (mft : Option (List MftFile × Nat))
      (prog : ScanProgress) (t : FileNode) (prog' : ScanProgress),
      scan_mft drive mft prog = some (t, prog') →
      sortedBySize t = true ∧ t.sort_by_size = t) := by
  refine ⟨?_, ?_, ?_, ?_⟩
  · intro root entries
    exact ⟨build_tree_sorted root entries, build_tree_fixed root entries⟩
  · intro root walk prog
    exact scan_sorted_fixed root walk prog
  · intro fs root prog t prog' h
    exact scan_bulk_sorted_fixed fs root prog t prog' h
  · intro drive mft prog t prog' h
    exact scan_mft_sorted_fixed drive mft prog t prog' h

/-- C9 witness: sortedness and the fixed point on concrete runs of the four
producers. -/
theorem C9_sorted_output_witness :
    (sortedBySize (build_tree ["r"] [(["r", "a"], false, 3)]) = true ∧
      (build_tree ["r"] [(["r", "a"], false, 3)]).sort_by_size =
        build_tree ["r"] [(["r", "a"], false, 3)]) ∧
    (sortedBySize (scan ["r"] [some (["r", "a"], false, 3)] prog0).1 = true ∧
      (scan ["r"] [some (["r", "a"], false, 3)] prog0).1.sort_by_size =
        (scan ["r"] [some (["r", "a"], false, 3)] prog0).1) ∧
    (sortedBySize (FileNode.mk "r" 7 true [FileNode.mk "a" 7 false []]) = true ∧
      (FileNode.mk "r" 7 true [FileNode.mk "a" 7 false []]).sort_by_size =
        FileNode.mk "r" 7 true [FileNode.mk "a" 7 false []]) ∧
    (sortedBySize (FileNode.mk "C:\\" 42 true [FileNode.mk "f" 42 false []]) =
      true ∧
      (FileNode.mk "C:\\" 42 true [FileNode.mk "f" 42 false []]).sort_by_size =
        FileNode.mk "C:\\" 42 true [FileNode.mk "f" 42 false []]) :=
  ⟨C9_sorted_output.1 ["r"] [(["r", "a"], false, 3)],
   C9_sorted_output.2.1 ["r"] [some (["r", "a"], false, 3)] prog0,
   C9_sorted_output.2.2.1 fsSkip ["r"] prog0 _ ⟨1, 0, 0, "r"⟩ (by rfl),
   C9_sorted_output.2.2.2 "C" mftIn prog0 _ ⟨2, 0, 0, ""⟩ (by rfl)⟩

/-- C10 counterexample: a 24-byte record that passes the initial length guard
but announces the error attribute; reading the error code indexes past the
slice and the source panics (modelled as .error ()), so parse_bulk_entry is
not total on truncated conditional fields as claimed. -/
theorem C10_counterexample :
    parse_bulk_entry recTrunc = .error () ∧ recTrunc.length = 24 :=
  ⟨by rfl, by decide⟩

/-- C10 amended: parse_bulk_entry returns Some or None without panicking on
every slice shorter than 24 bytes (the guard) and on every slice of at least
48 bytes (room for every conditional field it can reach); slices in between
whose conditional fields are truncated can panic, as the counterexample
shows. -/
theorem C10_amended :
    (∀ data : List Nat, data.length < 24 → parse_bulk_entry data = .ok none) ∧
    (∀ data : List Nat, 48 ≤ data.length → ∃ r, parse_bulk_entry data = .ok r) := by
  constructor
  · intro data h
    rw [parse_bulk_entry, if_pos (by omega)]
  · intro data h
    exact parse_bulk_entry_total_48 data h

/-- C10 amended witness: the empty slice is rejected by the guard, and a
48-byte slice parses without panic. -/
theorem C10_amended_witness :
    parse_bulk_entry [] = .ok none ∧
    ∃ r, parse_bulk_entry (recFileA ++ [0, 0]) = .ok r :=
  ⟨C10_amended.1 [] (by decide), C10_amended.2 (recFileA ++ [0, 0]) (by decide)⟩
